import Mathlib

/-!
Verification of the core geometric/record-processing logic of
`jmc_rev_roadsearch.py` (corridor buffering, search-envelope expansion,
point-in-polygon containment, record shape, deduplication).

Coordinates are modelled as rationals (Python floats are rationals); the
planar buffering step is modelled set-theoretically as the Minkowski
(closed-neighbourhood) buffer that shapely/GEOS computes, with the
pyproj projections abstracted as a zone-indexed family of coordinate
transforms passed in as a parameter.
-/

namespace RoadSearch

/-- A coordinate pair `(lon, lat)` in degrees, or `(x, y)` in planar meters. -/
abbrev Pt : Type := ℚ × ℚ

/-! ## Result Deduplicator (road_search, lines 192-205)

```python
found = set()
deduped = []
for r in results:
    key = (r["placename"], round(float(r["latitude"]), 6), round(float(r["longitude"]), 6))
    if key in found: continue
    found.add(key)
    deduped.append(r)
return deduped
```
-/

/-- Round-half-to-even of a rational to an integer, as Python's builtin
`round` behaves on a tie; values off the tie round to the nearest integer. -/
def roundHalfEven (x : ℚ) : ℤ :=
  let f : ℤ := ⌊x⌋
  let frac : ℚ := x - f
  if frac < 1/2 then f
  else if 1/2 < frac then f + 1
  else if f % 2 = 0 then f else f + 1

/-- `round(x, 6)` from the dedupe key: round to 6 decimal places. -/
def round6 (x : ℚ) : ℚ := (roundHalfEven (x * 1000000) : ℚ) / 1000000

/-- The flat record built in `road_search` (lines 178-190); field names mirror
the dict keys, `state/province` rendered as `state_province`. -/
structure PlacementRecord where
  roadway : String
  placename : String
  placename_ascii : String
  placename_en : String
  placetag : String
  latitude : ℚ
  longitude : ℚ
  state_province : String
  state_province_ascii : String
  country : String
deriving DecidableEq

/-- The dedupe key `(r["placename"], round(lat, 6), round(lon, 6))`. -/
def recKey (r : PlacementRecord) : String × ℚ × ℚ :=
  (r.placename, round6 r.latitude, round6 r.longitude)

/-- The dedupe loop with its accumulated `found` set of keys (modelled as the
list of keys added so far; only membership is used). -/
def dedupeAux (found : List (String × ℚ × ℚ)) :
    List PlacementRecord → List PlacementRecord
  | [] => []
  | r :: rs =>
      if recKey r ∈ found then dedupeAux found rs
      else r :: dedupeAux (recKey r :: found) rs

/-- The deduplication pass of `road_search`: keep the first record seen for
each key, drop later records with the same key. -/
def dedupe (l : List PlacementRecord) : List PlacementRecord := dedupeAux [] l

theorem dedupeAux_sublist (found : List (String × ℚ × ℚ)) :
    ∀ l : List PlacementRecord, (dedupeAux found l).Sublist l
  | [] => List.Sublist.refl []
  | r :: rs => by
      unfold dedupeAux
      by_cases h : recKey r ∈ found
      · simp only [if_pos h]
        exact (dedupeAux_sublist found rs).cons r
      · simp only [if_neg h]
        exact (dedupeAux_sublist (recKey r :: found) rs).cons₂ r

theorem dedupeAux_filter_mem (k : String × ℚ × ℚ) :
    ∀ (l : List PlacementRecord) (found : List (String × ℚ × ℚ)), k ∈ found →
      (dedupeAux found l).filter (fun r => recKey r == k) = []
  | [], _, _ => rfl
  | r :: rs, found, hk => by
      unfold dedupeAux
      by_cases h : recKey r ∈ found
      · simp only [if_pos h]
        exact dedupeAux_filter_mem k rs found hk
      · simp only [if_neg h]
        have hne : (recKey r == k) = false := by
          simp only [beq_eq_false_iff_ne, ne_eq]
          intro he; exact h (he ▸ hk)
        simp only [List.filter_cons, hne, Bool.false_eq_true, if_false]
        exact dedupeAux_filter_mem k rs (recKey r :: found) (List.mem_cons_of_mem _ hk)

theorem dedupeAux_filter_not_mem (k : String × ℚ × ℚ) :
    ∀ (l : List PlacementRecord) (found : List (String × ℚ × ℚ)), k ∉ found →
      (dedupeAux found l).filter (fun r => recKey r == k) =
        (l.find? (fun r => recKey r == k)).toList
  | [], _, _ => rfl
  | r :: rs, found, hk => by
      unfold dedupeAux
      by_cases h : recKey r ∈ found
      · have hne : (recKey r == k) = false := by
          simp only [beq_eq_false_iff_ne, ne_eq]
          intro he; exact hk (he ▸ h)
        simp only [if_pos h, List.find?_cons, hne]
        exact dedupeAux_filter_not_mem k rs found hk
      · simp only [if_neg h]
        by_cases hrk : (recKey r == k) = true
        · simp only [List.filter_cons, List.find?_cons, hrk, if_true]
          have hkmem : k ∈ recKey r :: found := by
            simp only [beq_iff_eq] at hrk
            exact hrk ▸ List.mem_cons_self _ _
          rw [dedupeAux_filter_mem k rs _ hkmem]
          rfl
        · have hrk' : (recKey r == k) = false := by
            simpa using hrk
          simp only [List.filter_cons, List.find?_cons, hrk', Bool.false_eq_true, if_false]
          have hknot : k ∉ recKey r :: found := by
            intro hmem
            rcases List.mem_cons.mp hmem with he | hf
            · exact hrk (by simp only [beq_iff_eq]; exact he.symm)
            · exact hk hf
          exact dedupeAux_filter_not_mem k rs (recKey r :: found) hknot

/-- **C6.** The deduplication pass returns an order-preserving subsequence of
its input in which, for every key, exactly the first record bearing that key
is kept (the key's records in the output are exactly the first such record of
the input); in particular no two output records share a key. -/
theorem dedupe_first_occurrence_wins (l : List PlacementRecord) :
    (dedupe l).Sublist l ∧
    ∀ k : String × ℚ × ℚ,
      (dedupe l).filter (fun r => recKey r == k) =
        (l.find? (fun r => recKey r == k)).toList :=
  ⟨dedupeAux_sublist [] l,
   fun k => dedupeAux_filter_not_mem k l [] (List.not_mem_nil k)⟩

theorem dedupeAux_key_not_in_found (found : List (String × ℚ × ℚ)) :
    ∀ l : List PlacementRecord, ∀ r ∈ dedupeAux found l, recKey r ∉ found
  | [], r, hr => absurd hr (List.not_mem_nil r)
  | x :: xs, r, hr => by
      unfold dedupeAux at hr
      by_cases h : recKey x ∈ found
      · simp only [if_pos h] at hr
        exact dedupeAux_key_not_in_found found xs r hr
      · simp only [if_neg h] at hr
        rcases List.mem_cons.mp hr with he | ht
        · exact he ▸ h
        · intro hf
          exact dedupeAux_key_not_in_found (recKey x :: found) xs r ht
            (List.mem_cons_of_mem _ hf)

theorem dedupeAux_pairwise_keys (found : List (String × ℚ × ℚ)) :
    ∀ l : List PlacementRecord,
      (dedupeAux found l).Pairwise (fun a b => recKey a ≠ recKey b)
  | [] => List.Pairwise.nil
  | x :: xs => by
      unfold dedupeAux
      by_cases h : recKey x ∈ found
      · simp only [if_pos h]
        exact dedupeAux_pairwise_keys found xs
      · simp only [if_neg h]
        refine List.Pairwise.cons ?_ (dedupeAux_pairwise_keys (recKey x :: found) xs)
        intro b hb he
        exact dedupeAux_key_not_in_found (recKey x :: found) xs b hb
          (he ▸ List.mem_cons_self _ _)

theorem dedupeAux_id_of_fresh (found : List (String × ℚ × ℚ)) :
    ∀ l : List PlacementRecord, (∀ r ∈ l, recKey r ∉ found) →
      l.Pairwise (fun a b => recKey a ≠ recKey b) → dedupeAux found l = l
  | [], _, _ => rfl
  | x :: xs, hfresh, hpw => by
      unfold dedupeAux
      rw [if_neg (hfresh x (List.mem_cons_self x xs))]
      have hpw' := List.pairwise_cons.mp hpw
      refine congrArg (x :: ·) (dedupeAux_id_of_fresh (recKey x :: found) xs ?_ hpw'.2)
      intro r hr hmem
      rcases List.mem_cons.mp hmem with he | hf
      · exact hpw'.1 r hr he.symm
      · exact hfresh r (List.mem_cons_of_mem x hr) hf

/-- **C7.** The deduplication pass is idempotent: a second pass over an
already-deduplicated list keeps every record, because no key repeats. -/
theorem dedupe_idempotent (l : List PlacementRecord) :
    dedupe (dedupe l) = dedupe l :=
  dedupeAux_id_of_fresh [] (dedupeAux [] l)
    (fun r _ => List.not_mem_nil (recKey r))
    (dedupeAux_pairwise_keys [] l)

/-! ## Candidate normalization (chosen_area, lines 104-127) and the
emitted record (road_search, lines 178-189) -/

/-- `d.get(k)` on a Python dict modelled as an association list. -/
def tagsGet (tags : List (String × String)) (k : String) : Option String :=
  (tags.find? (fun t => t.1 == k)).map Prod.snd

/-- Python `a or b` for an optional string `a` and string `b`: `a` unless it
is falsy (`None` or the empty string). -/
def pyOrDefault (a : Option String) (b : String) : String :=
  match a with
  | some s => if s = "" then b else s
  | none => b

/-- Python `a or b` where both operands are optional strings. -/
def pyOrOpt (a b : Option String) : Option String :=
  match a with
  | some s => if s = "" then b else some s
  | none => b

/-- An Overpass API element as consumed by `chosen_area`: a feature kind
(`node` / `way` / `relation`), optional direct coordinates, an optional
computed center, and a tag dictionary. -/
structure OSMElem where
  typ : String
  lat : Option ℚ
  lon : Option ℚ
  center : Option (Option ℚ × Option ℚ)
  tags : List (String × String)

/-- The normalized candidate dict that `chosen_area` returns. -/
structure Place where
  placename : String
  placename_ascii : String
  placename_en : String
  placetag : String
  latitude : Option ℚ
  longitude : Option ℚ
deriving DecidableEq

/-- `chosen_area` (lines 104-127): pick the position (direct for nodes,
center otherwise — `None` if a non-node has no center), then normalize names
via the fallback chains `name or name:en or ""`, `name:ascii or name`,
`name:en or name`, and the place kind via `tags.get("place", "town")`. -/
def chosen_area (e : OSMElem) : Option Place :=
  let pos : Option (Option ℚ × Option ℚ) :=
    if e.typ = "node" then some (e.lat, e.lon) else e.center
  match pos with
  | none => none
  | some (lat, lon) =>
      let name := pyOrDefault (pyOrOpt (tagsGet e.tags "name") (tagsGet e.tags "name:en")) ""
      let name_ascii := pyOrDefault (tagsGet e.tags "name:ascii") name
      let name_en := pyOrDefault (tagsGet e.tags "name:en") name
      let place_tag := (tagsGet e.tags "place").getD "town"
      some ⟨name, name_ascii, name_en, place_tag, lat, lon⟩

/-- **C10.** When the element's tag dictionary has no `place` key, the
normalized candidate produced by `chosen_area` (whenever it produces one)
carries the default place kind `"town"`. -/
theorem chosen_area_default_placetag (e : OSMElem) (p : Place)
    (hplace : tagsGet e.tags "place" = none)
    (hp : chosen_area e = some p) :
    p.placetag = "town" := by
  unfold chosen_area at hp
  rcases hpos : (if e.typ = "node" then some (e.lat, e.lon) else e.center) with _ | ⟨lat, lon⟩
  · rw [hpos] at hp; cases hp
  · rw [hpos] at hp
    simp only [Option.some.injEq] at hp
    rw [← hp]
    simp [hplace]

theorem chosen_area_default_placetag_witness :
    ∃ p : Place,
      chosen_area ⟨"node", some (2577/100), some (-8019/100), none, [("name", "Miami")]⟩ =
        some p ∧ p.placetag = "town" := by
  refine ⟨⟨"Miami", "Miami", "Miami", "town", some (2577/100), some (-8019/100)⟩, ?_, ?_⟩
  · rfl
  · exact chosen_area_default_placetag
      ⟨"node", some (2577/100), some (-8019/100), none, [("name", "Miami")]⟩
      ⟨"Miami", "Miami", "Miami", "town", some (2577/100), some (-8019/100)⟩
      rfl rfl

/-- A JSON-facing value of the emitted record. -/
inductive JValue
  | str : String → JValue
  | num : Option ℚ → JValue
deriving DecidableEq

/-- The result dict literal of `road_search` (lines 178-189), in insertion
order, built from the roadway name, the normalized place, and the resolved
state and country (`state or ""` / `country or ""`). -/
def result_record (roadway_name : String) (place : Place)
    (state country : Option String) : List (String × JValue) :=
  [("roadway", JValue.str roadway_name),
   ("placename", JValue.str place.placename),
   ("placename_ascii", JValue.str place.placename_ascii),
   ("placename_en", JValue.str place.placename_en),
   ("placetag", JValue.str place.placetag),
   ("latitude", JValue.num place.latitude),
   ("longitude", JValue.num place.longitude),
   ("state/province", JValue.str (pyOrDefault state "")),
   ("state/province-ascii", JValue.str (pyOrDefault state "")),
   ("country", JValue.str (pyOrDefault country ""))]

/-- The record keys prescribed by the module docstring (line 8) and the spec:
roadway, placename, placename_ascii, placename_en, placetag, latitude,
longitude, state/province, country. -/
def specRecordKeys : List String :=
  ["roadway", "placename", "placename_ascii", "placename_en", "placetag",
   "latitude", "longitude", "state/province", "country"]

/-- **C3.** Every record emitted by `road_search` has the ten keys of the
dict literal — including the extra `state/province-ascii` — and therefore
its key list is never the nine-key shape prescribed by the docstring. -/
theorem result_record_keys_bug (rn : String) (p : Place) (s c : Option String) :
    (result_record rn p s c).map Prod.fst =
      ["roadway", "placename", "placename_ascii", "placename_en", "placetag",
       "latitude", "longitude", "state/province", "state/province-ascii", "country"] ∧
    "state/province-ascii" ∈ (result_record rn p s c).map Prod.fst ∧
    (result_record rn p s c).map Prod.fst ≠ specRecordKeys := by
  refine ⟨rfl, ?_, ?_⟩
  · show "state/province-ascii" ∈
      ["roadway", "placename", "placename_ascii", "placename_en", "placetag",
       "latitude", "longitude", "state/province", "state/province-ascii", "country"]
    decide
  · show ["roadway", "placename", "placename_ascii", "placename_en", "placetag",
      "latitude", "longitude", "state/province", "state/province-ascii", "country"] ≠
      specRecordKeys
    decide

/-! ## Search Envelope Calculator (global_area, lines 71-77)

```python
minx, miny, maxx, maxy = geom.bounds
dx = maxx - minx
dy = maxy - miny
padx = dx * expand_factor + 0.01
pady = dy * expand_factor + 0.01
return (miny - pady, minx - padx, maxy + pady, maxx + padx)
```
The geometry is modelled by its vertex list; `geom.bounds` is the vertex-wise
min/max, exactly what shapely returns for a polygon. -/

/-- `geom.bounds`: the `(minx, miny, maxx, maxy)` bounding box of a vertex
list (junk `(0,0,0,0)` for the empty list, which shapely never hits here). -/
def bounds : List Pt → ℚ × ℚ × ℚ × ℚ
  | [] => (0, 0, 0, 0)
  | p :: tl =>
      (tl.foldl (fun m q => min m q.1) p.1,
       tl.foldl (fun m q => min m q.2) p.2,
       tl.foldl (fun m q => max m q.1) p.1,
       tl.foldl (fun m q => max m q.2) p.2)

/-- `global_area(geom, expand_factor)`: the expanded search bounding box
`(south, west, north, east)`. -/
def global_area (g : List Pt) (expand_factor : ℚ) : ℚ × ℚ × ℚ × ℚ :=
  let b := bounds g
  let dx := b.2.2.1 - b.1
  let dy := b.2.2.2 - b.2.1
  let padx := dx * expand_factor + 1/100
  let pady := dy * expand_factor + 1/100
  (b.2.1 - pady, b.1 - padx, b.2.2.2 + pady, b.2.2.1 + padx)

/-- Area of a `(south, west, north, east)` bounding box. -/
def envArea (bb : ℚ × ℚ × ℚ × ℚ) : ℚ := (bb.2.2.1 - bb.1) * (bb.2.2.2 - bb.2.1)

theorem foldl_min_le_init {α : Type} [LinearOrder α] (l : List α) :
    ∀ a : α, l.foldl min a ≤ a := by
  induction l with
  | nil => intro a; exact le_refl a
  | cons x xs ih =>
      intro a
      exact le_trans (ih (min a x)) (min_le_left a x)

theorem foldl_min_le_mem {α : Type} [LinearOrder α] (l : List α) :
    ∀ (a x : α), x ∈ l → l.foldl min a ≤ x := by
  induction l with
  | nil => intro a x hx; cases hx
  | cons y ys ih =>
      intro a x hx
      rcases List.mem_cons.mp hx with rfl | hx'
      · exact le_trans (foldl_min_le_init ys (min a x)) (min_le_right a x)
      · exact ih (min a y) x hx'

theorem le_foldl_max_init {α : Type} [LinearOrder α] (l : List α) :
    ∀ a : α, a ≤ l.foldl max a := by
  induction l with
  | nil => intro a; exact le_refl a
  | cons x xs ih =>
      intro a
      exact le_trans (le_max_left a x) (ih (max a x))

theorem le_foldl_max_mem {α : Type} [LinearOrder α] (l : List α) :
    ∀ (a x : α), x ∈ l → x ≤ l.foldl max a := by
  induction l with
  | nil => intro a x hx; cases hx
  | cons y ys ih =>
      intro a x hx
      rcases List.mem_cons.mp hx with rfl | hx'
      · exact le_trans (le_max_right a x) (le_foldl_max_init ys (max a x))
      · exact ih (max a y) x hx'

/-- Every vertex of a nonempty geometry lies inside its `bounds` box. -/
theorem bounds_mem (g : List Pt) (hg : g ≠ []) :
    ∀ q ∈ g, (bounds g).1 ≤ q.1 ∧ q.1 ≤ (bounds g).2.2.1 ∧
      (bounds g).2.1 ≤ q.2 ∧ q.2 ≤ (bounds g).2.2.2 := by
  match g, hg with
  | p :: tl, _ =>
      intro q hq
      simp only [bounds]
      have e1 : tl.foldl (fun m r => min m r.1) p.1 = (tl.map Prod.fst).foldl min p.1 :=
        (List.foldl_map Prod.fst min tl p.1).symm
      have e2 : tl.foldl (fun m r => min m r.2) p.2 = (tl.map Prod.snd).foldl min p.2 :=
        (List.foldl_map Prod.snd min tl p.2).symm
      have e3 : tl.foldl (fun m r => max m r.1) p.1 = (tl.map Prod.fst).foldl max p.1 :=
        (List.foldl_map Prod.fst max tl p.1).symm
      have e4 : tl.foldl (fun m r => max m r.2) p.2 = (tl.map Prod.snd).foldl max p.2 :=
        (List.foldl_map Prod.snd max tl p.2).symm
      rw [e1, e2, e3, e4]
      rcases List.mem_cons.mp hq with rfl | hq'
      · exact ⟨foldl_min_le_init _ _, le_foldl_max_init _ _,
          foldl_min_le_init _ _, le_foldl_max_init _ _⟩
      · exact ⟨foldl_min_le_mem _ _ _ (List.mem_map_of_mem Prod.fst hq'),
          le_foldl_max_mem _ _ _ (List.mem_map_of_mem Prod.fst hq'),
          foldl_min_le_mem _ _ _ (List.mem_map_of_mem Prod.snd hq'),
          le_foldl_max_mem _ _ _ (List.mem_map_of_mem Prod.snd hq')⟩

/-- The `bounds` box of a nonempty geometry is well-formed: min ≤ max in
both dimensions. -/
theorem bounds_le (g : List Pt) (hg : g ≠ []) :
    (bounds g).1 ≤ (bounds g).2.2.1 ∧ (bounds g).2.1 ≤ (bounds g).2.2.2 := by
  match g, hg with
  | p :: tl, hne =>
      have h := bounds_mem (p :: tl) hne p (List.mem_cons_self p tl)
      exact ⟨le_trans h.1 h.2.1, le_trans h.2.2.1 h.2.2.2⟩

/-- **C9.** For every nonempty corridor geometry and non-negative expansion
factor, the envelope returned by `global_area` pads each dimension of the
bounding box by `expand_factor × extent + 0.01`, so the envelope strictly
contains every vertex of the corridor and has strictly positive extent in
both dimensions — even for a zero-extent (single-point) geometry. -/
theorem global_area_contains_and_positive (g : List Pt) (f : ℚ)
    (hg : g ≠ []) (hf : 0 ≤ f) :
    (∀ q ∈ g, (global_area g f).1 < q.2 ∧ q.2 < (global_area g f).2.2.1 ∧
      (global_area g f).2.1 < q.1 ∧ q.1 < (global_area g f).2.2.2) ∧
    (global_area g f).1 < (global_area g f).2.2.1 ∧
    (global_area g f).2.1 < (global_area g f).2.2.2 := by
  obtain ⟨hx, hy⟩ := bounds_le g hg
  have hpadx : 0 < ((bounds g).2.2.1 - (bounds g).1) * f + 1/100 := by
    have : 0 ≤ ((bounds g).2.2.1 - (bounds g).1) * f :=
      mul_nonneg (by linarith) hf
    linarith
  have hpady : 0 < ((bounds g).2.2.2 - (bounds g).2.1) * f + 1/100 := by
    have : 0 ≤ ((bounds g).2.2.2 - (bounds g).2.1) * f :=
      mul_nonneg (by linarith) hf
    linarith
  refine ⟨?_, ?_, ?_⟩
  · intro q hq
    obtain ⟨h1, h2, h3, h4⟩ := bounds_mem g hg q hq
    simp only [global_area]
    exact ⟨by linarith, by linarith, by linarith, by linarith⟩
  · simp only [global_area]; linarith
  · simp only [global_area]; linarith

theorem global_area_contains_and_positive_witness :
    ((∀ q ∈ [((0 : ℚ), (0 : ℚ))],
        (global_area [(0, 0)] (1/50)).1 < q.2 ∧
        q.2 < (global_area [(0, 0)] (1/50)).2.2.1 ∧
        (global_area [(0, 0)] (1/50)).2.1 < q.1 ∧
        q.1 < (global_area [(0, 0)] (1/50)).2.2.2) ∧
      (global_area [(0, 0)] (1/50)).1 < (global_area [(0, 0)] (1/50)).2.2.1 ∧
      (global_area [(0, 0)] (1/50)).2.1 < (global_area [(0, 0)] (1/50)).2.2.2) :=
  global_area_contains_and_positive [(0, 0)] (1/50) (by decide) (by norm_num)

/-- The envelope area as a closed form in the bounding-box extents: with
`dx`, `dy` the extents, the area is `(dy(1+2f) + 1/50) * (dx(1+2f) + 1/50)`. -/
theorem envArea_global_area (g : List Pt) (f : ℚ) :
    envArea (global_area g f) =
      (((bounds g).2.2.2 - (bounds g).2.1) * (1 + 2 * f) + 1/50) *
        (((bounds g).2.2.1 - (bounds g).1) * (1 + 2 * f) + 1/50) := by
  simp only [envArea, global_area]
  ring

/-- **C8 (counterexample).** For the degenerate single-point geometry the
envelope area does not strictly increase with the expansion factor: it is
the same at factors `0` and `1`. -/
theorem global_area_not_strictly_monotone :
    envArea (global_area [((0 : ℚ), (0 : ℚ))] 0) =
      envArea (global_area [((0 : ℚ), (0 : ℚ))] 1) ∧
    ¬ envArea (global_area [((0 : ℚ), (0 : ℚ))] 0) <
        envArea (global_area [((0 : ℚ), (0 : ℚ))] 1) := by
  constructor
  · norm_num [envArea, global_area, bounds]
  · norm_num [envArea, global_area, bounds]

theorem padded_product_mono (dx dy f1 f2 : ℚ) (hdx0 : 0 ≤ dx) (hdy0 : 0 ≤ dy)
    (h0 : 0 ≤ f1) (h12 : f1 ≤ f2) :
    (dy * (1 + 2 * f1) + 1/50) * (dx * (1 + 2 * f1) + 1/50) ≤
      (dy * (1 + 2 * f2) + 1/50) * (dx * (1 + 2 * f2) + 1/50) ∧
    (f1 < f2 → 0 < dx ∨ 0 < dy →
      (dy * (1 + 2 * f1) + 1/50) * (dx * (1 + 2 * f1) + 1/50) <
        (dy * (1 + 2 * f2) + 1/50) * (dx * (1 + 2 * f2) + 1/50)) := by
  have hu1 : (0 : ℚ) < 1 + 2 * f1 := by linarith
  have hA : dy * (1 + 2 * f1) + 1/50 ≤ dy * (1 + 2 * f2) + 1/50 := by
    have h := mul_le_mul_of_nonneg_left (by linarith : 1 + 2 * f1 ≤ 1 + 2 * f2) hdy0
    linarith
  have hB : dx * (1 + 2 * f1) + 1/50 ≤ dx * (1 + 2 * f2) + 1/50 := by
    have h := mul_le_mul_of_nonneg_left (by linarith : 1 + 2 * f1 ≤ 1 + 2 * f2) hdx0
    linarith
  have hApos : 0 < dy * (1 + 2 * f1) + 1/50 := by
    have h : 0 ≤ dy * (1 + 2 * f1) := mul_nonneg hdy0 (le_of_lt hu1)
    linarith
  have hBpos : 0 < dx * (1 + 2 * f1) + 1/50 := by
    have h : 0 ≤ dx * (1 + 2 * f1) := mul_nonneg hdx0 (le_of_lt hu1)
    linarith
  refine ⟨mul_le_mul hA hB (le_of_lt hBpos) (le_trans (le_of_lt hApos) hA), ?_⟩
  intro hlt hext
  rcases hext with hdxpos | hdypos
  · have hBlt : dx * (1 + 2 * f1) + 1/50 < dx * (1 + 2 * f2) + 1/50 := by
      have h := mul_lt_mul_of_pos_left (by linarith : 1 + 2 * f1 < 1 + 2 * f2) hdxpos
      linarith
    exact mul_lt_mul' hA hBlt (le_of_lt hBpos) (lt_of_lt_of_le hApos hA)
  · have hAlt : dy * (1 + 2 * f1) + 1/50 < dy * (1 + 2 * f2) + 1/50 := by
      have h := mul_lt_mul_of_pos_left (by linarith : 1 + 2 * f1 < 1 + 2 * f2) hdypos
      linarith
    exact mul_lt_mul hAlt hB hBpos (le_trans (le_of_lt hApos) hA)

/-- **C8 (amended).** For `0 ≤ f₁ ≤ f₂` the envelope area is monotonically
non-decreasing in the expansion factor, and it strictly increases whenever
the corridor's bounding box has strictly positive extent in at least one
dimension (only for zero-extent degenerate geometries is it constant). -/
theorem global_area_monotone (g : List Pt) (f1 f2 : ℚ) (hg : g ≠ [])
    (h0 : 0 ≤ f1) (h12 : f1 ≤ f2) :
    envArea (global_area g f1) ≤ envArea (global_area g f2) ∧
    (f1 < f2 →
      ((bounds g).1 < (bounds g).2.2.1 ∨ (bounds g).2.1 < (bounds g).2.2.2) →
      envArea (global_area g f1) < envArea (global_area g f2)) := by
  obtain ⟨hx, hy⟩ := bounds_le g hg
  rw [envArea_global_area g f1, envArea_global_area g f2]
  have h := padded_product_mono ((bounds g).2.2.1 - (bounds g).1)
    ((bounds g).2.2.2 - (bounds g).2.1) f1 f2 (by linarith) (by linarith) h0 h12
  refine ⟨h.1, fun hlt hext => h.2 hlt ?_⟩
  rcases hext with h1 | h2
  · exact Or.inl (by linarith)
  · exact Or.inr (by linarith)

theorem global_area_monotone_witness :
    envArea (global_area [((0 : ℚ), (0 : ℚ)), ((1 : ℚ), (2 : ℚ))] 0) ≤
      envArea (global_area [((0 : ℚ), (0 : ℚ)), ((1 : ℚ), (2 : ℚ))] 1) ∧
    envArea (global_area [((0 : ℚ), (0 : ℚ)), ((1 : ℚ), (2 : ℚ))] 0) <
      envArea (global_area [((0 : ℚ), (0 : ℚ)), ((1 : ℚ), (2 : ℚ))] 1) := by
  have h := global_area_monotone [((0 : ℚ), (0 : ℚ)), ((1 : ℚ), (2 : ℚ))] 0 1
    (by decide) (by norm_num) (by norm_num)
  exact ⟨h.1, h.2 (by norm_num) (by decide)⟩

/-! ## Corridor Builder (create_buffer, lines 57-68)

```python
def create_buffer(gpsx, buffer_m=500):
    seg = LineString(gpsx)
    utm_zone = int((gpsx[0][0] + 180) / 6) + 1
    utm_crs = CRS.from_proj4(f"+proj=utm +zone={utm_zone} ...")
    trans_to_utm = Transformer.from_crs("EPSG:4326", utm_crs, always_xy=True).transform
    trans_to_wgs = Transformer.from_crs(utm_crs, "EPSG:4326", always_xy=True).transform
    seg_m = transform(trans_to_utm, seg)
    buff_mpoly = seg_m.buffer(buffer_m)
    buff_wgs = transform(trans_to_wgs, buff_mpoly)
    return buff_wgs
```

`LineString` is the union of the segments between consecutive points
(`LineString([])` is legal but then `gpsx[0]` raises `IndexError`;
`LineString` of a single point raises `ValueError`; two identical points
form a legal zero-length line). `shapely.buffer` of a 1-dimensional
geometry is its closed `r`-neighbourhood for `r > 0` and the empty
polygon for `r ≤ 0`; GEOS collapses a zero-length line to a point and
buffers it to a disc. The pyproj transformer pair is abstracted as a
zone-indexed family of forward/inverse maps supplied as a parameter. -/

/-- Squared Euclidean distance between two planar points. -/
def sqdist (p q : Pt) : ℚ := (p.1 - q.1) ^ 2 + (p.2 - q.2) ^ 2

/-- The closed segment between two points. -/
def segment (a b : Pt) : Set Pt :=
  {p | ∃ t : ℚ, 0 ≤ t ∧ t ≤ 1 ∧ p = (a.1 + t * (b.1 - a.1), a.2 + t * (b.2 - a.2))}

/-- `LineString(l)`: the union of the segments between consecutive points. -/
def polyline : List Pt → Set Pt
  | a :: b :: rest => segment a b ∪ polyline (b :: rest)
  | _ => ∅

/-- `geom.buffer(r)` for a 1-dimensional geometry: the closed
`r`-neighbourhood (all points within distance `r` of the geometry) when
`r > 0`, and the empty polygon when `r ≤ 0`. -/
def buffer (l : Set Pt) (r : ℚ) : Set Pt :=
  {p | 0 < r ∧ ∃ q ∈ l, sqdist p q ≤ r ^ 2}

/-- A pyproj forward/inverse transformer pair between geographic degrees
and planar (UTM) meters. -/
structure Projection where
  toUtm : Pt → Pt
  toWgs : Pt → Pt

/-- Python `int()`: truncation toward zero. -/
def pyInt (q : ℚ) : ℤ := if 0 ≤ q then ⌊q⌋ else ⌈q⌉

/-- `int((lon + 180) / 6) + 1`: the ad hoc UTM zone of a longitude. -/
def utm_zone (lon : ℚ) : ℤ := pyInt ((lon + 180) / 6) + 1

/-- The Python exceptions `create_buffer` can raise before producing a
geometry: `IndexError` from `gpsx[0]` on an empty trace, `ValueError` from
`LineString` on a single-point trace. -/
inductive PyError
  | indexError
  | valueError
deriving DecidableEq

/-- `create_buffer(gpsx, buffer_m)`: project the trace into the UTM zone of
its first point, buffer the planar polyline, and project the buffered
polygon back to geographic coordinates. `proj` is the zone-indexed family
of pyproj transformer pairs. -/
def create_buffer (proj : ℤ → Projection) (gpsx : List Pt) (buffer_m : ℚ) :
    Except PyError (Set Pt) :=
  match gpsx with
  | [] => Except.error PyError.indexError
  | [_] => Except.error PyError.valueError
  | p0 :: p1 :: tl =>
      let P := proj (utm_zone p0.1)
      Except.ok (Set.image P.toWgs (buffer (polyline ((p0 :: p1 :: tl).map P.toUtm)) buffer_m))

/-- The left endpoint lies on a segment (`t = 0`). -/
theorem left_mem_segment (a b : Pt) : a ∈ segment a b := by
  refine ⟨0, le_refl 0, by norm_num, ?_⟩
  have h1 : a.1 + 0 * (b.1 - a.1) = a.1 := by ring
  have h2 : a.2 + 0 * (b.2 - a.2) = a.2 := by ring
  rw [h1, h2]

/-- The right endpoint lies on a segment (`t = 1`). -/
theorem right_mem_segment (a b : Pt) : b ∈ segment a b := by
  refine ⟨1, by norm_num, le_refl 1, ?_⟩
  have h1 : a.1 + 1 * (b.1 - a.1) = b.1 := by ring
  have h2 : a.2 + 1 * (b.2 - a.2) = b.2 := by ring
  rw [h1, h2]

/-- Every vertex of a polyline with at least two points lies on the
polyline. -/
theorem mem_polyline : ∀ (l : List Pt) (p : Pt), p ∈ l → 2 ≤ l.length → p ∈ polyline l
  | [], _, hp, _ => absurd hp (List.not_mem_nil _)
  | [_], _, _, hl => by simp at hl
  | a :: b :: rest, p, hp, _ => by
      rcases List.mem_cons.mp hp with rfl | hp'
      · exact Or.inl (left_mem_segment p b)
      · rcases List.mem_cons.mp hp' with rfl | hp''
        · exact Or.inl (right_mem_segment a p)
        · match rest, hp'' with
          | c :: rest', hp'' =>
              exact Or.inr (mem_polyline (b :: c :: rest') p
                (List.mem_cons_of_mem b hp'') (by simp))

/-- Every point of a set is in its positive-radius buffer. -/
theorem mem_buffer_self (l : Set Pt) (r : ℚ) (hr : 0 < r) (p : Pt) (hp : p ∈ l) :
    p ∈ buffer l r := by
  refine ⟨hr, p, hp, ?_⟩
  have h : sqdist p p = 0 := by simp [sqdist]
  rw [h]
  positivity

/-- **C1.** For every trace of at least two points and every radius `r > 0`,
`create_buffer` succeeds, and — when the zone's inverse projection undoes
the forward projection (the claim's projection-tolerance proviso, modelled
as an exact round trip) — every point of the input trace lies within the
returned corridor. -/
theorem create_buffer_contains_trace (proj : ℤ → Projection) (gpsx : List Pt) (r : ℚ)
    (hinv : ∀ z q, (proj z).toWgs ((proj z).toUtm q) = q)
    (hlen : 2 ≤ gpsx.length) (hr : 0 < r) :
    ∃ C, create_buffer proj gpsx r = Except.ok C ∧ ∀ p ∈ gpsx, p ∈ C := by
  match gpsx, hlen with
  | p0 :: p1 :: tl, _ =>
      refine ⟨_, rfl, ?_⟩
      intro p hp
      refine ⟨(proj (utm_zone p0.1)).toUtm p, ?_, hinv _ p⟩
      refine mem_buffer_self _ r hr _ (mem_polyline _ _ ?_ ?_)
      · exact List.mem_map_of_mem _ hp
      · rw [List.length_map]
        simp only [List.length_cons]
        omega

theorem create_buffer_contains_trace_witness :
    ∃ C, create_buffer (fun _ => ⟨id, id⟩) [((0 : ℚ), (0 : ℚ)), ((1 : ℚ), (1 : ℚ))] 500 =
        Except.ok C ∧
      ∀ p ∈ [((0 : ℚ), (0 : ℚ)), ((1 : ℚ), (1 : ℚ))], p ∈ C :=
  create_buffer_contains_trace (fun _ => ⟨id, id⟩)
    [((0 : ℚ), (0 : ℚ)), ((1 : ℚ), (1 : ℚ))] 500
    (fun _ _ => rfl) (by norm_num) (by norm_num)

/-- **C4 (counterexample).** With a non-positive radius (`0`) and a
two-point trace, `create_buffer` does not fail: it returns a corridor. -/
theorem create_buffer_zero_radius_returns :
    (create_buffer (fun _ => ⟨id, id⟩) [((0 : ℚ), (0 : ℚ)), ((1 : ℚ), (0 : ℚ))] 0).isOk =
      true := rfl

/-- **C4 (amended).** `create_buffer` performs no radius validation: for
every trace of at least two points and every radius `r ≤ 0` it returns
normally — no `InvalidParameter` error — and the returned corridor is the
empty polygon (shapely's buffer of a line by a non-positive distance). -/
theorem create_buffer_nonpositive_radius (proj : ℤ → Projection) (gpsx : List Pt) (r : ℚ)
    (hlen : 2 ≤ gpsx.length) (hr : r ≤ 0) :
    ∃ C, create_buffer proj gpsx r = Except.ok C ∧ C = ∅ := by
  match gpsx, hlen with
  | p0 :: p1 :: tl, _ =>
      refine ⟨_, rfl, ?_⟩
      ext p
      simp only [Set.mem_image, Set.mem_empty_iff_false, iff_false]
      rintro ⟨q, ⟨hpos, _⟩, _⟩
      exact absurd (lt_of_lt_of_le hpos hr) (lt_irrefl 0)

theorem create_buffer_nonpositive_radius_witness :
    ∃ C, create_buffer (fun _ => ⟨id, id⟩) [((0 : ℚ), (0 : ℚ)), ((1 : ℚ), (0 : ℚ))] (-5) =
        Except.ok C ∧ C = ∅ :=
  create_buffer_nonpositive_radius (fun _ => ⟨id, id⟩)
    [((0 : ℚ), (0 : ℚ)), ((1 : ℚ), (0 : ℚ))] (-5) (by norm_num) (by norm_num)

/-- **C5 (counterexample).** For a trace of two identical points and the
default radius `500`, `create_buffer` does not fail with any error: it
returns a corridor. -/
theorem create_buffer_identical_points_returns :
    (create_buffer (fun _ => ⟨id, id⟩) [((0 : ℚ), (0 : ℚ)), ((0 : ℚ), (0 : ℚ))] 500).isOk =
      true := rfl

/-- **C5 (amended).** `create_buffer` raises no `DegenerateGeometry` error
on an all-coincident trace: for a trace of two identical points and any
radius `r > 0` it silently returns a corridor — the disc around the point
(nonempty: it contains the point itself), given that the zone's inverse
projection undoes the forward projection. -/
theorem create_buffer_identical_points (proj : ℤ → Projection) (p : Pt) (r : ℚ)
    (hinv : ∀ z q, (proj z).toWgs ((proj z).toUtm q) = q) (hr : 0 < r) :
    ∃ C, create_buffer proj [p, p] r = Except.ok C ∧ p ∈ C := by
  refine ⟨_, rfl, ?_⟩
  refine ⟨(proj (utm_zone p.1)).toUtm p, ?_, hinv _ p⟩
  exact mem_buffer_self _ r hr _ (Or.inl (left_mem_segment _ _))

theorem create_buffer_identical_points_witness :
    ∃ C, create_buffer (fun _ => ⟨id, id⟩)
        [((-8019/100 : ℚ), (2576/100 : ℚ)), ((-8019/100 : ℚ), (2576/100 : ℚ))] 500 =
      Except.ok C ∧ ((-8019/100 : ℚ), (2576/100 : ℚ)) ∈ C :=
  create_buffer_identical_points (fun _ => ⟨id, id⟩)
    ((-8019/100 : ℚ), (2576/100 : ℚ)) 500 (fun _ _ => rfl) (by norm_num)

/-! ## Containment Filter (road_search, lines 170-176)

```python
pt = Point(place["longitude"], place["latitude"])
if not pt.within(buff_geom):
    continue
```

Shapely's `Point.within(Polygon)` is the DE-9IM *within* predicate: it holds
exactly when the point lies in the polygon's topological interior, so a point
on the polygon's boundary is **not** within (shapely provides `covered_by`
for the closed test; `within` is the open one). For a polygon given by its
boundary ring this is: not on any boundary edge, and an odd even-odd ray
crossing number. The predicate is a pure function of its arguments. -/

/-- The edge list of a closed polygon ring: consecutive vertex pairs,
wrapping around. -/
def edges (poly : List Pt) : List (Pt × Pt) := poly.zip (poly.rotate 1)

/-- `p` lies on the closed segment from `a` to `b`: collinear and within the
segment's bounding box. -/
def OnSegment (p a b : Pt) : Prop :=
  (b.1 - a.1) * (p.2 - a.2) - (b.2 - a.2) * (p.1 - a.1) = 0 ∧
  min a.1 b.1 ≤ p.1 ∧ p.1 ≤ max a.1 b.1 ∧
  min a.2 b.2 ≤ p.2 ∧ p.2 ≤ max a.2 b.2

instance (p a b : Pt) : Decidable (OnSegment p a b) := by
  unfold OnSegment
  infer_instance

/-- `p` lies on the polygon's boundary: on some edge of the ring. -/
def OnBoundary (p : Pt) (poly : List Pt) : Prop :=
  ∃ e ∈ edges poly, OnSegment p e.1 e.2

instance (p : Pt) (poly : List Pt) : Decidable (OnBoundary p poly) := by
  unfold OnBoundary
  infer_instance

/-- One step of the even-odd ray-casting rule: the horizontal ray from `p`
crosses the edge from `a` to `b`. -/
def crossesRay (p a b : Pt) : Bool :=
  (decide (p.2 < a.2) != decide (p.2 < b.2)) &&
    decide (p.1 < (b.1 - a.1) * (p.2 - a.2) / (b.2 - a.2) + a.1)

/-- The number of polygon edges crossed by the horizontal ray from `p`. -/
def crossingNumber (p : Pt) (poly : List Pt) : ℕ :=
  (edges poly).countP (fun e => crossesRay p e.1 e.2)

/-- Shapely's `Point.within(Polygon)`: the point lies in the polygon's
topological interior — strictly inside (odd crossing number) and not on the
boundary. -/
def pt_within (p : Pt) (poly : List Pt) : Prop :=
  ¬ OnBoundary p poly ∧ crossingNumber p poly % 2 = 1

instance (p : Pt) (poly : List Pt) : Decidable (pt_within p poly) := by
  unfold pt_within
  infer_instance

/-- **C2 (counterexample).** The midpoint `(1, 0)` of the bottom edge of the
square `[(0,0), (2,0), (2,2), (0,2)]` lies exactly on the polygon's
boundary, yet the containment test rejects it: the test is not closed. -/
theorem pt_within_boundary_counterexample :
    OnBoundary ((1 : ℚ), (0 : ℚ))
      [((0 : ℚ), (0 : ℚ)), ((2 : ℚ), (0 : ℚ)), ((2 : ℚ), (2 : ℚ)), ((0 : ℚ), (2 : ℚ))] ∧
    ¬ pt_within ((1 : ℚ), (0 : ℚ))
      [((0 : ℚ), (0 : ℚ)), ((2 : ℚ), (0 : ℚ)), ((2 : ℚ), (2 : ℚ)), ((0 : ℚ), (2 : ℚ))] := by
  have hb : OnBoundary ((1 : ℚ), (0 : ℚ))
      [((0 : ℚ), (0 : ℚ)), ((2 : ℚ), (0 : ℚ)), ((2 : ℚ), (2 : ℚ)), ((0 : ℚ), (2 : ℚ))] := by
    refine ⟨(((0 : ℚ), (0 : ℚ)), ((2 : ℚ), (0 : ℚ))), ?_, ?_⟩
    · have he : edges [((0 : ℚ), (0 : ℚ)), ((2 : ℚ), (0 : ℚ)),
          ((2 : ℚ), (2 : ℚ)), ((0 : ℚ), (2 : ℚ))] =
          [(((0 : ℚ), (0 : ℚ)), ((2 : ℚ), (0 : ℚ))),
           (((2 : ℚ), (0 : ℚ)), ((2 : ℚ), (2 : ℚ))),
           (((2 : ℚ), (2 : ℚ)), ((0 : ℚ), (2 : ℚ))),
           (((0 : ℚ), (2 : ℚ)), ((0 : ℚ), (0 : ℚ)))] := rfl
      rw [he]
      exact List.mem_cons_self _ _
    · constructor
      · norm_num
      · refine ⟨?_, ?_, ?_, ?_⟩ <;> norm_num [min_def, max_def]
  exact ⟨hb, fun hw => hw.1 hb⟩

/-- **C2 (amended).** The containment test used to accept or reject a
candidate against the corridor polygon is *open* on the boundary, not
closed: every point lying exactly on the polygon's boundary is rejected
(`within` is false there); it remains a pure, deterministic predicate. -/
theorem pt_within_rejects_boundary (p : Pt) (poly : List Pt)
    (h : OnBoundary p poly) : ¬ pt_within p poly :=
  fun hw => hw.1 h

theorem pt_within_rejects_boundary_witness :
    ¬ pt_within ((1 : ℚ), (0 : ℚ))
      [((0 : ℚ), (0 : ℚ)), ((2 : ℚ), (0 : ℚ)), ((2 : ℚ), (2 : ℚ)), ((0 : ℚ), (2 : ℚ))] := by
  refine pt_within_rejects_boundary ((1 : ℚ), (0 : ℚ))
    [((0 : ℚ), (0 : ℚ)), ((2 : ℚ), (0 : ℚ)), ((2 : ℚ), (2 : ℚ)), ((0 : ℚ), (2 : ℚ))] ?_
  refine ⟨(((0 : ℚ), (0 : ℚ)), ((2 : ℚ), (0 : ℚ))), ?_, ?_⟩
  · have he : edges [((0 : ℚ), (0 : ℚ)), ((2 : ℚ), (0 : ℚ)),
        ((2 : ℚ), (2 : ℚ)), ((0 : ℚ), (2 : ℚ))] =
        [(((0 : ℚ), (0 : ℚ)), ((2 : ℚ), (0 : ℚ))),
         (((2 : ℚ), (0 : ℚ)), ((2 : ℚ), (2 : ℚ))),
         (((2 : ℚ), (2 : ℚ)), ((0 : ℚ), (2 : ℚ))),
         (((0 : ℚ), (2 : ℚ)), ((0 : ℚ), (0 : ℚ)))] := rfl
    rw [he]
    exact List.mem_cons_self _ _
  · constructor
    · norm_num
    · refine ⟨?_, ?_, ?_, ?_⟩ <;> norm_num [min_def, max_def]

end RoadSearch
